import Mathlib

/-! Verification development for the `SC.IndexSet` range set of
`src/frameworks/runtime/system/index_set.js` (SproutCore runtime).

The boundary map `this._content` (a JavaScript array used as a sparse map
from integer index to number) is embedded as a function `ℤ → Option ℤ`,
where `none` stands for a missing (`undefined`) entry.  JavaScript
comparisons against `undefined` or `NaN` are always false, and
`Math.abs(undefined)` is `NaN`; the `Option`-aware helpers below reproduce
exactly that behaviour.  The source's `while` loops are embedded with
explicit fuel; every general lemma below holds for an arbitrary fuel
value, and concrete evaluations use fuels that are amply sufficient. -/

/-- Pointwise store update: the effect of the assignment `content[k] = v`. -/
def upd (f : ℤ → Option ℤ) (k v : ℤ) : ℤ → Option ℤ :=
  fun i => if i = k then some v else f i

/-- `Math.abs` applied to a possibly-`undefined` value: `Math.abs(undefined)`
is `NaN`, which we keep as `none` (it compares false against everything,
and indexing an array with it yields `undefined` again). -/
def jsAbsO : Option ℤ → Option ℤ
  | some v => some (v.natAbs : ℤ)
  | none => none

/-- `content[x]` where `x` may itself be `undefined` (then the result is
`undefined`). -/
def optLookup (c : ℤ → Option ℤ) : Option ℤ → Option ℤ
  | some k => c k
  | none => none

/-- The JavaScript test `content[index] > 0` (false when the entry is
`undefined`). -/
def jsPos : Option ℤ → Bool
  | some v => decide (0 < v)
  | none => false

/-- The state of an `SC.IndexSet`: the boundary/accelerator map
`this._content`, the frontier `this._last` and the cached cardinality
`this.length`.  All three keep their source names. -/
structure IndexSet where
  _content : ℤ → Option ℤ
  _last : ℤ
  length : ℤ

/-- `this._content = [0]`: a JavaScript array with the single element `0`
at index `0`. -/
def emptyContent : ℤ → Option ℤ := upd (fun _ => none) 0 0

/-- The constructor `SC.IndexSet = function(ranges) {...}`: it sets
`this._content = [0]` and returns; the `ranges` argument is never read
(`_last` and `length` come from the prototype, both `0`). -/
def IndexSet.initWith (ranges : List ℤ) : IndexSet :=
  { _content := emptyContent, _last := 0, length := 0 }

/-- `SC.IndexSet.create = function(items) { return new SC.IndexSet(items); }`. -/
def IndexSet.create (items : List ℤ) : IndexSet := IndexSet.initWith items

/-- A freshly constructed, empty set. -/
def emptyIndexSet : IndexSet := IndexSet.create []

/-- The loop `while (next < index) { ret = next; next = Math.abs(content[ret]); }`
of `rangeStartForIndex`.  `ret` starts as the raw accelerator entry (possibly
`undefined`); `next` is `none` when it is `NaN`, in which case the comparison
`next < index` is false and the loop stops.  Fuel only bounds the iteration
count; on every state appearing below the loop stops by its own guard first. -/
def rsWalk (c : ℤ → Option ℤ) (index : ℤ) : ℕ → Option ℤ → Option ℤ → Option ℤ
  | 0, ret, _ => ret
  | fuel+1, ret, next =>
    match next with
    | some n => if n < index then rsWalk c index fuel (some n) (jsAbsO (c n)) else ret
    | none => ret

/-- `rangeStartForIndex(index)`: the two fast cases, then
`ret = content[index - (index % 256)]` (JavaScript `%` is truncating
remainder, `Int.tmod`) and the forward walk.  The result is `none` exactly
when the source would return `undefined`. -/
def IndexSet.rangeStartForIndex (S : IndexSet) (index : ℤ) : Option ℤ :=
  if S._last ≤ index then some S._last
  else if jsPos (S._content index) then some index
  else
    let ret := S._content (index - Int.tmod index 256)
    rsWalk S._content index (index.natAbs + 2) ret (jsAbsO (optLookup S._content ret))

/-- `contains(start, length)`.  A `none` length is the one-argument numeric
form, which defaults to `length = 1` (the range-object overload is not used
by any claim).  When `rangeStartForIndex` returns `undefined`, the source
reads `content[undefined]` (= `undefined`) and all three comparisons are
false. -/
def IndexSet.contains (S : IndexSet) (start : ℤ) (length : Option ℤ) : Bool :=
  let len := match length with | none => 1 | some v => v
  match S.rangeStartForIndex start with
  | none => false
  | some rstart =>
    match S._content rstart with
    | none => false
    | some rnext => decide (0 < rnext) && decide (rstart ≤ start) && decide (start + len ≤ rnext)

/-- The inner loop of `_hint`:
`while (next <= loc) { start = next; next = Math.abs(content[start]); }`.
Returns the final `(start, next)` pair. -/
def hintSeek (c : ℤ → Option ℤ) : ℕ → ℤ → Option ℤ → ℤ → ℤ × Option ℤ
  | 0, start, next, _ => (start, next)
  | fuel+1, start, next, loc =>
    match next with
    | some n => if n ≤ loc then hintSeek c fuel n (jsAbsO (c n)) loc else (start, next)
    | none => (start, next)

/-- The outer loop of `_hint`: `while (loc < lim) { ...inner...;
if (loc !== start) content[loc] = start; loc += skip; }` with
`skip = SC.IndexSet.HINT_SIZE = 256`. -/
def hintFill (c : ℤ → Option ℤ) (fuel : ℕ) (start : ℤ) (next : Option ℤ) (loc lim : ℤ) : ℤ → Option ℤ :=
  match fuel with
  | 0 => c
  | f+1 =>
    if loc < lim then
      let p := hintSeek c (loc.toNat + 1) start next loc
      hintFill (if loc ≠ p.1 then upd c loc p.1 else c) f p.1 p.2 (loc + 256) lim
    else c

/-- `_hint(start, length)`: `next = Math.abs(content[start])`,
`loc = start - (start % skip) + skip`, `lim = start + length`, then the
fill loop. -/
def IndexSet._hint (c : ℤ → Option ℤ) (start length : ℤ) : ℤ → Option ℤ :=
  hintFill c (((start + length) - (start - Int.tmod start 256 + 256)).toNat + 1)
    start (jsAbsO (c start)) (start - Int.tmod start 256 + 256) (start + length)

/-- `add(start, length)`.  The appending branch (`start > this._last`)
writes `content[last] = 0-start`, `content[start] = start+length`,
`content[start+length] = 0` (in this order, so for `length = 0` the final
value at `start` is `0`), advances `_last`, adds `length` to `length`, and
then calls `_hint(last, this._last - last)`.  The `else` branch of the
source (merge into an existing range) is empty: `hstart`/`hlength` stay
`undefined`, so the subsequent `_hint` call's loop bounds are `NaN`, its
loop never runs, and the state is returned unchanged.  The unconditional
`enumerableContentDidChange(start, length)` notification is modelled by
`IndexSet.addNotice`. -/
def IndexSet.add (S : IndexSet) (start length : ℤ) : IndexSet :=
  if S._last < start then
    { _content :=
        IndexSet._hint
          (upd (upd (upd S._content S._last (0 - start)) start (start + length)) (start + length) 0)
          S._last ((start + length) - S._last),
      _last := start + length,
      length := S.length + length }
  else
    S

/-- `add` together with its observable notification: every call, in both
branches, ends with `this.enumerableContentDidChange(start, length)` and
`return this`. -/
def IndexSet.addNotice (S : IndexSet) (start length : ℤ) : IndexSet × List (ℤ × ℤ) :=
  (S.add start length, [(start, length)])

/-- Denotational membership in the boundary map, per the data model of the
spec (§3): starting from the run-start `0`, each key holds a signed end
whose magnitude is the next run-start; an index is present when it falls in
a run whose stored value is positive.  Used to state what a set's contents
actually are. -/
def memberWalk (c : ℤ → Option ℤ) (i : ℤ) : ℤ → ℕ → Bool
  | _, 0 => false
  | pos, fuel+1 =>
    match c pos with
    | none => false
    | some v =>
      if pos ≤ i ∧ i < (v.natAbs : ℤ) then decide (0 < v)
      else if pos < (v.natAbs : ℤ) then memberWalk c i (v.natAbs : ℤ) fuel
      else false

/-- An index is present in the set: negative indices and indices at or
beyond the frontier are absent, otherwise the boundary map decides. -/
def memberF (S : IndexSet) (i : ℤ) : Bool :=
  if i < 0 then false
  else if S._last ≤ i then false
  else memberWalk S._content i 0 (S._last.toNat + 1)

/-- The do/while of `nextObject`:
`do { idx = Math.abs(next); next = content[idx]; } while (next < 0)`
(the comparison is false when `content[idx]` is `undefined`). -/
def doWalk (c : ℤ → Option ℤ) : ℤ → ℕ → ℤ × Option ℤ
  | next, 0 => ((next.natAbs : ℤ), c (next.natAbs : ℤ))
  | next, fuel+1 =>
    match c (next.natAbs : ℤ) with
    | some v => if v < 0 then doWalk c v fuel else ((next.natAbs : ℤ), some v)
    | none => ((next.natAbs : ℤ), none)

/-- `nextObject(ignore, idx, context)`: `idx = null` seeds `idx = next = 0`
(and `idx === next` holds, so the do/while runs); otherwise the call
returns `null` at or beyond `_last`, else increments `idx` and runs the
do/while exactly when the incremented `idx` equals `context.next`.  The
returned pair is `(result, context.next after the call)`. -/
def IndexSet.nextObject (S : IndexSet) (idx : Option ℤ) (ctxNext : Option ℤ) : Option ℤ × Option ℤ :=
  match idx with
  | none =>
    let r := doWalk S._content 0 (S._last.toNat + 2)
    (some r.1, r.2)
  | some i =>
    if S._last ≤ i then (none, ctxNext)
    else if some (i + 1) = ctxNext then
      let r := doWalk S._content (i + 1) (S._last.toNat + 2)
      (some r.1, r.2)
    else (some (i + 1), ctxNext)

/-- Drive `nextObject` from the start sentinel (`null` index, fresh context)
until it returns the terminal sentinel, collecting the produced indices. -/
def enumFrom (S : IndexSet) : Option ℤ → Option ℤ → ℕ → List ℤ
  | _, _, 0 => []
  | idx, ctx, fuel+1 =>
    match S.nextObject idx ctx with
    | (none, _) => []
    | (some i, ctx2) => i :: enumFrom S (some i) ctx2 fuel

/-- The full enumeration of a set via the iteration primitive. -/
def enumAll (S : IndexSet) : List ℤ := enumFrom S none none (S._last.toNat + 2)

/-- Modelled from the spec: the removal routine `remove(start, length)` is
missing from the source (`index_set.js` only carries a commented-out
`remove` that implements an unrelated hashed-object set, as the spec's §9
notes).  Per §4.3 it "marks [start, start+length) absent" and decreases the
cardinality "by exactly the count of indices that were present within the
span before the call".  The model acts on the denotational state: the
present-index predicate and the cached cardinality. -/
def removeSpec (p : ℕ → Bool) (card : ℤ) (start len : ℕ) : (ℕ → Bool) × ℤ :=
  (fun i => p i && ! decide (start ≤ i ∧ i < start + len),
   card - ((List.range len).countP fun j => p (start + j) : ℤ))

/-- The boundary map written by the appending branch of `add` on a fresh
set, before `_hint` runs: `content[0] = 0-start`, `content[start] =
start+length`, `content[start+length] = 0`. -/
def preC (s l : ℤ) : ℤ → Option ℤ :=
  upd (upd (upd emptyContent 0 (0 - s)) s (s + l)) (s + l) 0

/-! ## Unfolding equations and basic facts -/

theorem upd_self (f : ℤ → Option ℤ) (k v : ℤ) : upd f k v k = some v := by
  simp [upd]

theorem upd_other (f : ℤ → Option ℤ) (k v i : ℤ) (h : i ≠ k) : upd f k v i = f i := by
  simp [upd, h]

theorem jsAbsO_of_nonneg (v : ℤ) (h : 0 ≤ v) : jsAbsO (some v) = some v := by
  simp [jsAbsO, Int.natAbs_of_nonneg h]

theorem jsAbsO_zero_sub (s : ℤ) (h : 0 ≤ s) : jsAbsO (some (0 - s)) = some s := by
  simp [jsAbsO, zero_sub, Int.natAbs_neg, Int.natAbs_of_nonneg h]

theorem seek_step (c : ℤ → Option ℤ) (f : ℕ) (start n loc : ℤ) (h : n ≤ loc) :
    hintSeek c (f + 1) start (some n) loc = hintSeek c f n (jsAbsO (c n)) loc := by
  show (if n ≤ loc then hintSeek c f n (jsAbsO (c n)) loc else (start, some n)) = _
  rw [if_pos h]

theorem seek_stop (c : ℤ → Option ℤ) (f : ℕ) (start n loc : ℤ) (h : ¬ n ≤ loc) :
    hintSeek c f start (some n) loc = (start, some n) := by
  cases f with
  | zero => rfl
  | succ f =>
    show (if n ≤ loc then hintSeek c f n (jsAbsO (c n)) loc else (start, some n)) = _
    rw [if_neg h]

theorem hintFill_succ (c : ℤ → Option ℤ) (f : ℕ) (start : ℤ) (next : Option ℤ) (loc lim : ℤ) :
    hintFill c (f + 1) start next loc lim =
      if loc < lim then
        hintFill
          (if loc ≠ (hintSeek c (loc.toNat + 1) start next loc).1 then
            upd c loc (hintSeek c (loc.toNat + 1) start next loc).1 else c)
          f (hintSeek c (loc.toNat + 1) start next loc).1
          (hintSeek c (loc.toNat + 1) start next loc).2 (loc + 256) lim
      else c := rfl

theorem memberWalk_succ (c : ℤ → Option ℤ) (i pos : ℤ) (f : ℕ) :
    memberWalk c i pos (f + 1) =
      match c pos with
      | none => false
      | some v =>
        if pos ≤ i ∧ i < (v.natAbs : ℤ) then decide (0 < v)
        else if pos < (v.natAbs : ℤ) then memberWalk c i (v.natAbs : ℤ) f
        else false := rfl

theorem add_noop (S : IndexSet) (start len : ℤ) (h : ¬ S._last < start) :
    IndexSet.add S start len = S := by
  unfold IndexSet.add
  rw [if_neg h]

theorem add_last_of_append (S : IndexSet) (start len : ℤ) (h : S._last < start) :
    (IndexSet.add S start len)._last = start + len := by
  unfold IndexSet.add
  rw [if_pos h]

theorem add_empty_struct (s l : ℤ) (hs : 1 ≤ s) :
    IndexSet.add emptyIndexSet s l =
      { _content := IndexSet._hint (preC s l) 0 (s + l),
        _last := s + l, length := l } := by
  have h : emptyIndexSet._last < s := by
    have h0 : emptyIndexSet._last = 0 := rfl
    omega
  unfold IndexSet.add
  rw [if_pos h]
  simp only [show emptyIndexSet._last = (0 : ℤ) from rfl,
    show emptyIndexSet._content = emptyContent from rfl,
    show emptyIndexSet.length = (0 : ℤ) from rfl, sub_zero, zero_add]
  rfl

theorem memberF_empty (i : ℤ) : memberF emptyIndexSet i = false := by
  unfold memberF
  by_cases h : i < 0
  · rw [if_pos h]
  · rw [if_neg h, if_pos (show emptyIndexSet._last ≤ i by
      have h0 : emptyIndexSet._last = 0 := rfl
      omega)]

/-! ## Concrete evaluations of the source operations -/

set_option maxRecDepth 8000 in
/-- Claim C1: on an empty set, `add(0,5)` followed by `add(5,5)` is claimed
to mark all of [0,10) present (one run, cardinality 10).  On the source,
`add(0,5)` falls into the empty merge branch (`0 > _last` fails) and is a
no-op, so the pair of calls yields cardinality 5, leaves index 0 absent and
stores the absent run value `-5` at key 0. -/
theorem claim_C1_eval :
    (IndexSet.add (IndexSet.add emptyIndexSet 0 5) 5 5).length = 5 ∧
    memberF (IndexSet.add (IndexSet.add emptyIndexSet 0 5) 5 5) 0 = false ∧
    memberF (IndexSet.add (IndexSet.add emptyIndexSet 0 5) 5 5) 7 = true ∧
    (IndexSet.add (IndexSet.add emptyIndexSet 0 5) 5 5)._content 0 = some (-5) := by
  decide

set_option maxRecDepth 8000 in
/-- Claim C2: on the set reached by `add(256,10)` (boundary map
`0 ↦ -256, 256 ↦ 266, 266 ↦ 0`), the run containing index 100 is the
absent run [0,256) with key 0, yet `rangeStartForIndex(100)` reads the
entry at `100 - 100 % 256 = 0` without taking its magnitude and returns
`-256`, which is not the key of any run. -/
theorem claim_C2_eval :
    (IndexSet.add emptyIndexSet 256 10)._content 0 = some (-256) ∧
    (IndexSet.add emptyIndexSet 256 10)._content 256 = some 266 ∧
    (IndexSet.add emptyIndexSet 256 10)._last = 266 ∧
    IndexSet.rangeStartForIndex (IndexSet.add emptyIndexSet 256 10) 100 = some (-256) ∧
    (IndexSet.add emptyIndexSet 256 10)._content (-256) = none := by
  decide

set_option maxRecDepth 8000 in
/-- Claim C3: full enumeration via `nextObject` is claimed to produce
exactly `length` indices, and none on an empty set.  The source seeds the
iteration at index 0 and stops only after yielding the frontier index, so
the empty set enumerates `[0]` (one index, cardinality 0) and the set
`add(10,5)` enumerates `[10,…,15]` (six indices, cardinality 5). -/
theorem claim_C3_eval :
    enumAll emptyIndexSet = [0] ∧
    emptyIndexSet.length = 0 ∧
    enumAll (IndexSet.add emptyIndexSet 10 5) = [10, 11, 12, 13, 14, 15] ∧
    (IndexSet.add emptyIndexSet 10 5).length = 5 := by
  decide

set_option maxRecDepth 8000 in
/-- Claim C5 counterexample: `add(5,-3)` has `length < 0`, so the claim
says an InvalidRange error is reported and the set is left completely
unchanged.  The source performs no validation: the call takes the append
branch, moves the frontier from 0 to 2 and sets the cardinality to -3. -/
theorem claim_C5_counterexample :
    (IndexSet.add emptyIndexSet 5 (-3))._last = 2 ∧
    (IndexSet.add emptyIndexSet 5 (-3)).length = -3 ∧
    emptyIndexSet._last = 0 ∧ emptyIndexSet.length = 0 := by
  decide

/-- Claim C6: with the frontier at 10 (set built by `add(3,7)`), the claim
says `add(10,5)` (start equal to the frontier) appends a present run
[10,15), advances the frontier to 15 and adds 5 to the cardinality.  The
source's strict test `start > this._last` fails, the call falls into the
empty merge branch, and the state is returned unchanged. -/
theorem claim_C6_eval :
    IndexSet.add (IndexSet.add emptyIndexSet 3 7) 10 5 = IndexSet.add emptyIndexSet 3 7 ∧
    (IndexSet.add emptyIndexSet 3 7)._last = 10 ∧
    (IndexSet.add emptyIndexSet 3 7).length = 7 := by
  exact ⟨rfl, by decide, by decide⟩

set_option maxRecDepth 8000 in
/-- Claim C7: on the set built by `add(100,300)` the accelerator writes
`content[256] = 100`; index 256 lies inside the single present run
[100,400), yet `contains(256,1)` is false, because the accelerator entry
passes the `content[index] > 0` run-start test and the run end is then
read as 100.  Also, `contains(0,0)` on the empty set is false, not
vacuously true: the resolved entry `content[0] = 0` fails `rnext > 0`. -/
theorem claim_C7_eval :
    IndexSet.contains (IndexSet.add emptyIndexSet 100 300) 256 (some 1) = false ∧
    memberF (IndexSet.add emptyIndexSet 100 300) 256 = true ∧
    (IndexSet.add emptyIndexSet 100 300)._content 100 = some 400 ∧
    (IndexSet.add emptyIndexSet 100 300)._content 256 = some 100 ∧
    IndexSet.contains emptyIndexSet 0 (some 0) = false := by
  decide

set_option maxRecDepth 8000 in
/-- Claim C8 counterexample: the claim says `SC.IndexSet.create([3])`
contains exactly the passed indices.  The constructor never reads its
argument, so the resulting set is empty and does not contain 3. -/
theorem claim_C8_counterexample :
    (IndexSet.create [3]).length = 0 ∧
    IndexSet.contains (IndexSet.create [3]) 3 none = false ∧
    memberF (IndexSet.create [3]) 3 = false := by
  decide

/-- Claim C8 (amended): the constructor ignores the passed collection —
`create(items)` yields the empty set (frontier 0, cardinality 0, boundary
map `{0 ↦ 0}`) whether or not a collection is passed. -/
theorem claim_C8_amended (items : List ℤ) :
    IndexSet.create items = IndexSet.create [] ∧
    (IndexSet.create items).length = 0 ∧
    (IndexSet.create items)._last = 0 ∧
    (IndexSet.create items)._content 0 = some 0 := by
  exact ⟨rfl, rfl, rfl, rfl⟩

/-- The `_hint` fill loop started below a limit of `s` with the chain stuck
at run-start `0` (next boundary `s`) never reaches `s`, so it cannot change
the entry at `0`. -/
theorem hintFill_keep_lt (s : ℤ) :
    ∀ (fuel : ℕ) (c : ℤ → Option ℤ) (loc : ℤ), 0 < loc →
      hintFill c fuel 0 (some s) loc s 0 = c 0 := by
  intro fuel
  induction fuel with
  | zero => intro c loc _; rfl
  | succ f ih =>
    intro c loc hloc
    by_cases hlt : loc < s
    · have hseek : hintSeek c (loc.toNat + 1) 0 (some s) loc = (0, some s) :=
        seek_stop c _ 0 s loc (by omega)
      rw [hintFill_succ, if_pos hlt, hseek]
      dsimp only
      rw [if_pos (by omega : loc ≠ (0 : ℤ))]
      rw [ih (upd c loc 0) (loc + 256) (by omega)]
      exact upd_other c loc 0 0 (by omega)
    · rw [hintFill_succ, if_neg hlt]

/-- The `_hint` fill loop over the freshly appended layout
`0 ↦ -(s), s ↦ s+l` (with `1 ≤ s`, `1 ≤ l`) only ever writes accelerator
entries at positions other than the run boundaries `0` and `s`: the
entries at `0` and `s` survive the whole loop, for any fuel. -/
theorem hintFill_keep (s l : ℤ) (hs : 1 ≤ s) (hl : 1 ≤ l) :
    ∀ (fuel : ℕ) (c : ℤ → Option ℤ) (start : ℤ) (next : Option ℤ) (loc : ℤ),
      0 < loc →
      ((start = 0 ∧ next = some s) ∨ (start = s ∧ next = some (s + l))) →
      c 0 = some (0 - s) → c s = some (s + l) →
      hintFill c fuel start next loc (s + l) 0 = some (0 - s) ∧
      hintFill c fuel start next loc (s + l) s = some (s + l) := by
  intro fuel
  induction fuel with
  | zero => intro c start next loc _ _ h0 h1; exact ⟨h0, h1⟩
  | succ f ih =>
    intro c start next loc hloc hinv h0 h1
    by_cases hlt : loc < s + l
    · rw [hintFill_succ, if_pos hlt]
      rcases hinv with ⟨hst, hnx⟩ | ⟨hst, hnx⟩
      · subst hst; subst hnx
        by_cases hsl : s ≤ loc
        · have hseek : hintSeek c (loc.toNat + 1) 0 (some s) loc = (s, some (s + l)) := by
            rw [seek_step c _ 0 s loc hsl, h1, jsAbsO_of_nonneg _ (by omega)]
            exact seek_stop c _ s (s + l) loc (by omega)
          rw [hseek]
          dsimp only
          by_cases hloceq : loc = s
          · rw [if_neg (not_not_intro hloceq)]
            exact ih c s (some (s + l)) (loc + 256) (by omega) (Or.inr ⟨rfl, rfl⟩) h0 h1
          · rw [if_pos hloceq]
            refine ih (upd c loc s) s (some (s + l)) (loc + 256) (by omega)
              (Or.inr ⟨rfl, rfl⟩) ?_ ?_
            · rw [upd_other _ _ _ _ (by omega : (0 : ℤ) ≠ loc)]; exact h0
            · rw [upd_other _ _ _ _ (fun h => hloceq h.symm)]; exact h1
        · have hseek : hintSeek c (loc.toNat + 1) 0 (some s) loc = (0, some s) :=
            seek_stop c _ 0 s loc hsl
          rw [hseek]
          dsimp only
          rw [if_pos (by omega : loc ≠ (0 : ℤ))]
          refine ih (upd c loc 0) 0 (some s) (loc + 256) (by omega)
            (Or.inl ⟨rfl, rfl⟩) ?_ ?_
          · rw [upd_other _ _ _ _ (by omega : (0 : ℤ) ≠ loc)]; exact h0
          · rw [upd_other _ _ _ _ (by omega : s ≠ loc)]; exact h1
      · rw [hst, hnx]
        have hseek : hintSeek c (loc.toNat + 1) s (some (s + l)) loc = (s, some (s + l)) :=
          seek_stop c _ s (s + l) loc (by omega)
        rw [hseek]
        dsimp only
        by_cases hloceq : loc = s
        · rw [if_neg (not_not_intro hloceq)]
          exact ih c s (some (s + l)) (loc + 256) (by omega) (Or.inr ⟨rfl, rfl⟩) h0 h1
        · rw [if_pos hloceq]
          refine ih (upd c loc s) s (some (s + l)) (loc + 256) (by omega)
            (Or.inr ⟨rfl, rfl⟩) ?_ ?_
          · rw [upd_other _ _ _ _ (by omega : (0 : ℤ) ≠ loc)]; exact h0
          · rw [upd_other _ _ _ _ (fun h => hloceq h.symm)]; exact h1
    · rw [hintFill_succ, if_neg hlt]
      exact ⟨h0, h1⟩

theorem preC_at_zero (s l : ℤ) (hs : 1 ≤ s) (hl : 0 ≤ l) : preC s l 0 = some (0 - s) := by
  unfold preC
  rw [upd_other _ _ _ _ (by omega : (0 : ℤ) ≠ s + l),
    upd_other _ _ _ _ (by omega : (0 : ℤ) ≠ s), upd_self]

theorem preC_at_s (s l : ℤ) (hl : 1 ≤ l) : preC s l s = some (s + l) := by
  unfold preC
  rw [upd_other _ _ _ _ (by omega : s ≠ s + l), upd_self]

/-- After `_hint` runs over the freshly appended layout, the boundary entry
at `0` (the absent run `[0, s)`) is intact. -/
theorem hint_preC_zero (s l : ℤ) (hs : 1 ≤ s) (hl : 0 ≤ l) :
    IndexSet._hint (preC s l) 0 (s + l) 0 = some (0 - s) := by
  unfold IndexSet._hint
  rw [show (0 : ℤ) - Int.tmod 0 256 + 256 = 256 by decide,
    show (0 : ℤ) + (s + l) = s + l from zero_add _,
    preC_at_zero s l hs hl, jsAbsO_zero_sub s (by omega)]
  rcases lt_or_le 0 l with hl1 | hl1
  · exact (hintFill_keep s l hs (by omega) _ (preC s l) 0 (some s) 256 (by norm_num)
      (Or.inl ⟨rfl, rfl⟩) (preC_at_zero s l hs hl) (preC_at_s s l (by omega))).1
  · have hl0 : l = 0 := le_antisymm hl1 hl
    subst hl0
    rw [show s + (0 : ℤ) = s from add_zero s]
    rw [hintFill_keep_lt s _ (preC s 0) 256 (by norm_num)]
    exact preC_at_zero s 0 hs le_rfl

/-- After `_hint` runs over the freshly appended layout with `1 ≤ l`, the
boundary entry at `s` (the present run `[s, s+l)`) is intact. -/
theorem hint_preC_s (s l : ℤ) (hs : 1 ≤ s) (hl : 1 ≤ l) :
    IndexSet._hint (preC s l) 0 (s + l) s = some (s + l) := by
  unfold IndexSet._hint
  rw [show (0 : ℤ) - Int.tmod 0 256 + 256 = 256 by decide,
    show (0 : ℤ) + (s + l) = s + l from zero_add _,
    preC_at_zero s l hs (by omega), jsAbsO_zero_sub s (by omega)]
  exact (hintFill_keep s l hs hl _ (preC s l) 0 (some s) 256 (by norm_num)
    (Or.inl ⟨rfl, rfl⟩) (preC_at_zero s l hs (by omega)) (preC_at_s s l hl)).2

/-- Membership after a single append on a fresh set: exactly the indices of
`[s, s+l)` are present. -/
theorem memberF_add_empty (s l i : ℤ) (hs : 1 ≤ s) (hl : 0 ≤ l) :
    memberF (IndexSet.add emptyIndexSet s l) i = decide (s ≤ i ∧ i < s + l) := by
  rw [add_empty_struct s l hs]
  unfold memberF
  dsimp only
  by_cases hi0 : i < 0
  · rw [if_pos hi0]
    rw [decide_eq_false (by omega : ¬(s ≤ i ∧ i < s + l))]
  · rw [if_neg hi0]
    by_cases hif : s + l ≤ i
    · rw [if_pos hif]
      rw [decide_eq_false (by omega : ¬(s ≤ i ∧ i < s + l))]
    · rw [if_neg hif]
      have habs : ((((0 : ℤ) - s).natAbs : ℤ)) = s := by
        rw [zero_sub, Int.natAbs_neg]
        exact Int.natAbs_of_nonneg (by omega)
      rw [memberWalk_succ, hint_preC_zero s l hs hl]
      dsimp only
      rw [habs]
      by_cases his : i < s
      · rw [if_pos ⟨by omega, his⟩]
        rw [decide_eq_false (by omega : ¬(0 : ℤ) < 0 - s),
          decide_eq_false (by omega : ¬(s ≤ i ∧ i < s + l))]
      · have hl1 : 1 ≤ l := by omega
        rw [if_neg (by omega : ¬((0 : ℤ) ≤ i ∧ i < s)), if_pos (by omega : (0 : ℤ) < s)]
        have hk : (s + l).toNat = ((s + l).toNat - 1) + 1 := by omega
        rw [hk, memberWalk_succ, hint_preC_s s l hs hl1]
        dsimp only
        have habs2 : (((s + l).natAbs : ℤ)) = s + l := Int.natAbs_of_nonneg (by omega)
        rw [habs2, if_pos ⟨by omega, by omega⟩]
        rw [decide_eq_true (by omega : (0 : ℤ) < s + l),
          decide_eq_true (⟨by omega, by omega⟩ : s ≤ i ∧ i < s + l)]

/-- Claim C4: for all valid `(s, l)`, the spec-modelled `remove(s, l)`
applied to the state reached by the source `add(s, l)` on an initially
empty set yields an empty set: no index remains present and the resulting
cardinality is 0. -/
theorem claim_C4_round_trip (s l : ℕ) :
    (removeSpec (fun i => memberF (IndexSet.add emptyIndexSet (s : ℤ) (l : ℤ)) (i : ℤ))
      (IndexSet.add emptyIndexSet (s : ℤ) (l : ℤ)).length s l).2 = 0 ∧
    ∀ i : ℕ, (removeSpec (fun i => memberF (IndexSet.add emptyIndexSet (s : ℤ) (l : ℤ)) (i : ℤ))
      (IndexSet.add emptyIndexSet (s : ℤ) (l : ℤ)).length s l).1 i = false := by
  by_cases hs : s = 0
  · subst hs
    have hnoop : IndexSet.add emptyIndexSet ((0 : ℕ) : ℤ) (l : ℤ) = emptyIndexSet := by
      apply add_noop
      have h0 : emptyIndexSet._last = 0 := rfl
      omega
    rw [hnoop]
    constructor
    · unfold removeSpec
      dsimp only
      rw [show emptyIndexSet.length = (0 : ℤ) from rfl]
      rw [List.countP_eq_zero.mpr (by intro a _; rw [memberF_empty]; exact Bool.false_ne_true)]
      simp
    · intro i
      unfold removeSpec
      dsimp only
      rw [memberF_empty]
      rfl
  · have hs1 : 1 ≤ ((s : ℕ) : ℤ) := by omega
    have hl0 : 0 ≤ ((l : ℕ) : ℤ) := by omega
    have hchar : ∀ i : ℕ, memberF (IndexSet.add emptyIndexSet (s : ℤ) (l : ℤ)) (i : ℤ)
        = decide (s ≤ i ∧ i < s + l) := by
      intro i
      rw [memberF_add_empty (s : ℤ) (l : ℤ) (i : ℤ) hs1 hl0]
      exact decide_eq_decide.mpr (by omega)
    constructor
    · unfold removeSpec
      dsimp only
      have hlen : (IndexSet.add emptyIndexSet (s : ℤ) (l : ℤ)).length = (l : ℤ) := by
        rw [add_empty_struct _ _ hs1]
      rw [hlen]
      have hcount : ((List.range l).countP fun j =>
          memberF (IndexSet.add emptyIndexSet (s : ℤ) (l : ℤ)) ((s + j : ℕ) : ℤ)) = l := by
        have hall : ∀ j ∈ List.range l, (fun j =>
            memberF (IndexSet.add emptyIndexSet (s : ℤ) (l : ℤ)) ((s + j : ℕ) : ℤ)) j = true := by
          intro j hj
          have hjl : j < l := List.mem_range.mp hj
          show memberF (IndexSet.add emptyIndexSet (s : ℤ) (l : ℤ)) ((s + j : ℕ) : ℤ) = true
          rw [hchar (s + j)]
          exact decide_eq_true ⟨by omega, by omega⟩
        rw [List.countP_eq_length.mpr hall, List.length_range]
      rw [hcount, sub_self]
    · intro i
      unfold removeSpec
      dsimp only
      rw [hchar i]
      exact Bool.and_not_self _

/-- Claim C5 (amended): no InvalidRange validation exists.  `add(-1, 5)`
reports no error and leaves any set (with the nonnegative frontier every
reachable set has) completely unchanged, the change hook still firing with
the passed pair — while the negative-length call `add(5, -3)` on the empty
set does mutate it, setting the cardinality to -3. -/
theorem claim_C5_amended (S : IndexSet) (h : 0 ≤ S._last) :
    IndexSet.addNotice S (-1) 5 = (S, [((-1 : ℤ), (5 : ℤ))]) ∧
    (IndexSet.add emptyIndexSet 5 (-3)).length = -3 := by
  constructor
  · unfold IndexSet.addNotice
    rw [add_noop S (-1) 5 (by omega)]
  · decide

theorem claim_C5_witness :
    (0 : ℤ) ≤ emptyIndexSet._last ∧
    (IndexSet.addNotice emptyIndexSet (-1) 5 = (emptyIndexSet, [((-1 : ℤ), (5 : ℤ))]) ∧
     (IndexSet.add emptyIndexSet 5 (-3)).length = -3) :=
  ⟨by decide, claim_C5_amended emptyIndexSet (by decide)⟩

/-- Claim C9: for every starting set and every valid `(s, l)` (nonnegative
length), calling `add(s, l)` twice yields exactly the state of calling it
once: if the first call appended, the new frontier `s + l` is at least `s`,
so the second call falls into the empty merge branch; if the first call was
itself a no-op, so is the second. -/
theorem claim_C9_idempotent (S : IndexSet) (s l : ℤ) (h : 0 ≤ l) :
    IndexSet.add (IndexSet.add S s l) s l = IndexSet.add S s l := by
  by_cases h1 : S._last < s
  · apply add_noop
    rw [add_last_of_append S s l h1]
    omega
  · rw [add_noop S s l h1]
    exact add_noop S s l h1

theorem claim_C9_witness :
    (0 : ℤ) ≤ 2 ∧
    IndexSet.add (IndexSet.add emptyIndexSet 3 2) 3 2 = IndexSet.add emptyIndexSet 3 2 :=
  ⟨by decide, claim_C9_idempotent emptyIndexSet 3 2 (by decide)⟩

/-- Claim C10: for every set and every `(start, length)` with
`start ≤ _last`, `add` leaves the boundary map, the frontier and the
cardinality completely unchanged, and its only observable effect is the
`enumerableContentDidChange(start, length)` notification with exactly the
passed pair. -/
theorem claim_C10_noop (S : IndexSet) (start len : ℤ) (h : start ≤ S._last) :
    IndexSet.addNotice S start len = (S, [(start, len)]) := by
  unfold IndexSet.addNotice
  rw [add_noop S start len (by omega)]

theorem claim_C10_witness :
    (0 : ℤ) ≤ emptyIndexSet._last ∧
    IndexSet.addNotice emptyIndexSet 0 5 = (emptyIndexSet, [((0 : ℤ), (5 : ℤ))]) :=
  ⟨by decide, claim_C10_noop emptyIndexSet 0 5 (by decide)⟩
